import Mathlib

/-!
# The `proxy` command of the Ory CLI: configuration resolution

A shallow embedding of `cmd/cloudx/proxy/proxy.go` (`NewProxyCommand` and its
`RunE` closure) together with the library routines that decide its behaviour:
`url.ParseRequestURI` and `(*url.URL).String` of Go's `net/url`, the `%d` verb
of `fmt.Sprintf`, and `cobra.RangeArgs`.

Go strings are byte sequences.  A byte is represented by a natural number
below 256; no arithmetic in this development can leave that range.
-/

namespace OryProxy

/-! ## Go strings -/

/-- A Go string: its sequence of bytes. -/
abbrev GoString := List Nat

deriving instance DecidableEq for Except

/-- The bytes (UTF-8) of a string literal. -/
def bytes (s : String) : GoString :=
  s.toList.flatMap fun c => (String.utf8EncodeChar c).map UInt8.toNat

/-- Go `strings.HasPrefix`. -/
def hasPrefix (s p : GoString) : Bool := p.isPrefixOf s

/-- Go `strings.HasSuffix`. -/
def hasSuffix (s p : GoString) : Bool := p.isSuffixOf s

/-- Go `strings.Index`: position of the first occurrence of `sep` in `s`. -/
def index : GoString → GoString → Option Nat
  | [], sep => if sep = [] then some 0 else none
  | b :: rest, sep =>
    if sep.isPrefixOf (b :: rest) then some 0 else (index rest sep).map (· + 1)

/-- Go `strings.LastIndex`: position of the last occurrence of `sep` in `s`. -/
def lastIndex : GoString → GoString → Option Nat
  | [], sep => if sep = [] then some 0 else none
  | b :: rest, sep =>
    match lastIndex rest sep with
    | some i => some (i + 1)
    | none => if sep.isPrefixOf (b :: rest) then some 0 else none

/-- Go `strings.Contains`. -/
def contains (s sep : GoString) : Bool := (index s sep).isSome

/-- Go `strings.Count` for a separator of one byte. -/
def countByte (s : GoString) (c : Nat) : Nat := s.count c

/-- Go `strings.Cut`: split around the first occurrence of `sep`. -/
def cut (s sep : GoString) : GoString × GoString × Bool :=
  match index s sep with
  | some i => (s.take i, s.drop (i + sep.length), true)
  | none => (s, [], false)

/-- Go `strings.ToLower` on ASCII input (the only input it receives here:
`getScheme` yields letters, digits, `+`, `-` and `.`). -/
def toLower (s : GoString) : GoString :=
  s.map fun c => if 65 ≤ c ∧ c ≤ 90 then c + 32 else c

/-! ## `net/url`: escaping -/

/-- The `encoding` modes of `net/url`. -/
inductive encoding
  | encodePath
  | encodePathSegment
  | encodeHost
  | encodeZone
  | encodeUserPassword
  | encodeQueryComponent
  | encodeFragment
  deriving DecidableEq, Repr

/-- The errors `net/url`'s `parse` can produce. -/
inductive ParseErr
  /-- Message `net/url: invalid control character in URL`. -/
  | invalidControlCharacter
  /-- Message `empty url`. -/
  | emptyURL
  /-- Message `missing protocol scheme`. -/
  | missingProtocolScheme
  /-- Message `invalid URI for request`. -/
  | invalidURIForRequest
  /-- Message `first path segment in URL cannot contain colon`. -/
  | firstPathSegmentColon
  /-- Go `EscapeError`: invalid URL escape. -/
  | EscapeError (s : GoString)
  /-- Go `InvalidHostError`: invalid character in host name. -/
  | InvalidHostError (s : GoString)
  /-- Message `missing ']' in host`. -/
  | missingBracket
  /-- Message `invalid port ... after host`. -/
  | invalidPort (colonPort : GoString)
  /-- Message `net/url: invalid userinfo`. -/
  | invalidUserinfo
  deriving DecidableEq, Repr

/-- Go `ishex`. -/
def ishex (c : Nat) : Bool :=
  if 48 ≤ c ∧ c ≤ 57 then true
  else if 97 ≤ c ∧ c ≤ 102 then true
  else if 65 ≤ c ∧ c ≤ 70 then true
  else false

/-- Go `unhex`. -/
def unhex (c : Nat) : Nat :=
  if 48 ≤ c ∧ c ≤ 57 then c - 48
  else if 97 ≤ c ∧ c ≤ 102 then c - 97 + 10
  else if 65 ≤ c ∧ c ≤ 70 then c - 65 + 10
  else 0

/-- The inner `switch mode` of `shouldEscape` for the reserved characters
`$ & + , / : ; = ? @`; `none` when no case applies and control falls through. -/
def reservedEscape (c : Nat) : encoding → Option Bool
  | .encodePath => some (c == 63)
  | .encodePathSegment => some (c == 47 || c == 59 || c == 44 || c == 63)
  | .encodeUserPassword => some (c == 64 || c == 47 || c == 63 || c == 58)
  | .encodeQueryComponent => some true
  | .encodeFragment => some false
  | _ => none

/-- The end of `shouldEscape`: sub-delims allowed in a fragment, everything else escaped. -/
def escapeByDefault (c : Nat) (mode : encoding) : Bool :=
  if mode = .encodeFragment ∧ c ∈ [33, 40, 41, 42] then false else true

/-- Go `shouldEscape`: whether byte `c` must be escaped in the given mode. -/
def shouldEscape (c : Nat) (mode : encoding) : Bool :=
  -- unreserved characters (alphanum)
  if (97 ≤ c ∧ c ≤ 122) ∨ (65 ≤ c ∧ c ≤ 90) ∨ (48 ≤ c ∧ c ≤ 57) then false
  -- host: ! $ & ' ( ) * + , ; = : [ ] < > "
  else if (mode = .encodeHost ∨ mode = .encodeZone) ∧
      c ∈ [33, 36, 38, 39, 40, 41, 42, 43, 44, 59, 61, 58, 91, 93, 60, 62, 34] then false
  -- unreserved characters (mark): - _ . ~
  else if c ∈ [45, 95, 46, 126] then false
  -- reserved characters: $ & + , / : ; = ? @
  else if c ∈ [36, 38, 43, 44, 47, 58, 59, 61, 63, 64] then
    match reservedEscape c mode with
    | some b => b
    | none => escapeByDefault c mode
  else escapeByDefault c mode

/-- The first loop of Go `unescape`: counts the `%` and checks that every escape
is well formed.  Returns the count `n` and the flag `hasPlus`. -/
def unescapeScan (mode : encoding) : GoString → Nat → Bool → Except ParseErr (Nat × Bool)
  | [], n, hasPlus => .ok (n, hasPlus)
  | c :: rest, n, hasPlus =>
    if c = 37 then
      match rest with
      | a :: b :: rest2 =>
        if !ishex a || !ishex b then .error (.EscapeError [c, a, b])
        else if mode = .encodeHost ∧ unhex a < 8 ∧ [c, a, b] ≠ [37, 50, 53] then
          .error (.EscapeError [c, a, b])
        else if mode = .encodeZone ∧ [c, a, b] ≠ [37, 50, 53] ∧
            ((unhex a <<< 4) ||| unhex b) ≠ 32 ∧
            shouldEscape ((unhex a <<< 4) ||| unhex b) .encodeHost = true then
          .error (.EscapeError [c, a, b])
        else unescapeScan mode rest2 (n + 1) hasPlus
      | _ => .error (.EscapeError (c :: rest))
    else if c = 43 then unescapeScan mode rest n (decide (mode = .encodeQueryComponent))
    else if (mode = .encodeHost ∨ mode = .encodeZone) ∧ c < 128 ∧
        shouldEscape c .encodeHost = true then
      .error (.InvalidHostError [c])
    else unescapeScan mode rest n hasPlus

/-- The second loop of Go `unescape`: decodes the escapes.  It runs only on
strings the first loop accepted, where every `%` is followed by two bytes. -/
def unescapeBuild (mode : encoding) : GoString → GoString
  | [] => []
  | c :: rest =>
    if c = 37 then
      match rest with
      | a :: b :: rest2 => ((unhex a <<< 4) ||| unhex b) :: unescapeBuild mode rest2
      | _ => []
    else if c = 43 then
      (if mode = .encodeQueryComponent then 32 else 43) :: unescapeBuild mode rest
    else c :: unescapeBuild mode rest

/-- Go `unescape`. -/
def unescape (s : GoString) (mode : encoding) : Except ParseErr GoString :=
  match unescapeScan mode s 0 false with
  | .error e => .error e
  | .ok (n, hasPlus) => if n = 0 ∧ hasPlus = false then .ok s else .ok (unescapeBuild mode s)

/-- The table `upperhex` of `net/url`, indexed. -/
def upperhex (i : Nat) : Nat :=
  [48, 49, 50, 51, 52, 53, 54, 55, 56, 57, 65, 66, 67, 68, 69, 70].getD i 0

/-- The counting loop of Go `escape`: `(spaceCount, hexCount)`. -/
def escapeCount (mode : encoding) : GoString → Nat × Nat
  | [] => (0, 0)
  | c :: rest =>
    let (spaceCount, hexCount) := escapeCount mode rest
    if shouldEscape c mode then
      if c = 32 ∧ mode = .encodeQueryComponent then (spaceCount + 1, hexCount)
      else (spaceCount, hexCount + 1)
    else (spaceCount, hexCount)

/-- The writing loop of Go `escape`. -/
def escapeBuild (mode : encoding) : GoString → GoString
  | [] => []
  | c :: rest =>
    if c = 32 ∧ mode = .encodeQueryComponent then 43 :: escapeBuild mode rest
    else if shouldEscape c mode then
      37 :: upperhex (c >>> 4) :: upperhex (c &&& 15) :: escapeBuild mode rest
    else c :: escapeBuild mode rest

/-- Go `escape`. -/
def escape (s : GoString) (mode : encoding) : GoString :=
  let (spaceCount, hexCount) := escapeCount mode s
  if spaceCount = 0 ∧ hexCount = 0 then s
  else if hexCount = 0 then s.map fun c => if c = 32 then 43 else c
  else escapeBuild mode s

/-- Go `validEncoded`. -/
def validEncoded (s : GoString) (mode : encoding) : Bool :=
  s.all fun c =>
    if c ∈ [33, 36, 38, 39, 40, 41, 42, 43, 44, 59, 61, 58, 64] then true
    else if c ∈ [91, 93] then true
    else if c = 37 then true
    else !shouldEscape c mode

/-! ## `net/url`: the URL type and its parser -/

/-- Go `url.Userinfo`. -/
structure Userinfo where
  username : GoString
  password : GoString
  passwordSet : Bool
  deriving DecidableEq, Repr

/-- Go `url.User`. -/
def User (username : GoString) : Userinfo := ⟨username, [], false⟩

/-- Go `url.UserPassword`. -/
def UserPassword (username password : GoString) : Userinfo := ⟨username, password, true⟩

/-- Go `url.URL`; the defaults are Go's zero values. -/
structure URL where
  Scheme : GoString := []
  Opaque : GoString := []
  User : Option Userinfo := none
  Host : GoString := []
  Path : GoString := []
  RawPath : GoString := []
  OmitHost : Bool := false
  ForceQuery : Bool := false
  RawQuery : GoString := []
  Fragment : GoString := []
  RawFragment : GoString := []
  deriving DecidableEq, Repr

/-- Go `url.Error`, the error `ParseRequestURI` returns. -/
structure Error where
  Op : GoString
  URL : GoString
  Err : ParseErr
  deriving DecidableEq, Repr

/-- Go `stringContainsCTLByte`. -/
def stringContainsCTLByte (s : GoString) : Bool :=
  s.any fun b => decide (b < 32) || decide (b = 127)

/-- The loop of Go `getScheme`; `s` is `rawURL[i:]`. -/
def getSchemeLoop (rawURL : GoString) : GoString → Nat → Except ParseErr (GoString × GoString)
  | [], _ => .ok ([], rawURL)
  | c :: rest, i =>
    if (97 ≤ c ∧ c ≤ 122) ∨ (65 ≤ c ∧ c ≤ 90) then getSchemeLoop rawURL rest (i + 1)
    else if (48 ≤ c ∧ c ≤ 57) ∨ c = 43 ∨ c = 45 ∨ c = 46 then
      if i = 0 then .ok ([], rawURL) else getSchemeLoop rawURL rest (i + 1)
    else if c = 58 then
      if i = 0 then .error .missingProtocolScheme
      else .ok (rawURL.take i, rawURL.drop (i + 1))
    else .ok ([], rawURL)

/-- Go `getScheme`: splits `scheme:rest`; the scheme is empty when there is none. -/
def getScheme (rawURL : GoString) : Except ParseErr (GoString × GoString) :=
  getSchemeLoop rawURL rawURL 0

/-- Go `validOptionalPort`: `port` is empty or a colon followed by digits. -/
def validOptionalPort (port : GoString) : Bool :=
  match port with
  | [] => true
  | c :: rest => if c ≠ 58 then false else rest.all fun b => !(decide (b < 48) || decide (b > 57))

/-- Go `validUserinfo`.  The Go loop ranges over runes; every rune outside ASCII is
rejected, so ranging over bytes gives the same answer. -/
def validUserinfo (s : GoString) : Bool :=
  s.all fun r =>
    if 65 ≤ r ∧ r ≤ 90 then true
    else if 97 ≤ r ∧ r ≤ 122 then true
    else if 48 ≤ r ∧ r ≤ 57 then true
    else decide (r ∈ [45, 46, 95, 58, 126, 33, 36, 38, 39, 40, 41, 42, 43, 44, 59, 61, 37, 64])

/-- Go `parseHost`. -/
def parseHost (host : GoString) : Except ParseErr GoString :=
  if hasPrefix host (bytes "[") then
    match lastIndex host (bytes "]") with
    | none => .error .missingBracket
    | some i =>
      let colonPort := host.drop (i + 1)
      if !validOptionalPort colonPort then .error (.invalidPort colonPort)
      else
        match index (host.take i) (bytes "%25") with
        | some zone =>
          match unescape (host.take zone) .encodeHost with
          | .error e => .error e
          | .ok host1 =>
            match unescape ((host.take i).drop zone) .encodeZone with
            | .error e => .error e
            | .ok host2 =>
              match unescape (host.drop i) .encodeHost with
              | .error e => .error e
              | .ok host3 => .ok (host1 ++ host2 ++ host3)
        | none => unescape host .encodeHost
  else
    match lastIndex host (bytes ":") with
    | some i =>
      let colonPort := host.drop i
      if !validOptionalPort colonPort then .error (.invalidPort colonPort)
      else unescape host .encodeHost
    | none => unescape host .encodeHost

/-- The userinfo part of Go `parseAuthority`. -/
def parseUserinfo (userinfo : GoString) : Except ParseErr Userinfo :=
  if !validUserinfo userinfo then .error .invalidUserinfo
  else if !contains userinfo (bytes ":") then
    match unescape userinfo .encodeUserPassword with
    | .error e => .error e
    | .ok userinfo => .ok (User userinfo)
  else
    match unescape (cut userinfo (bytes ":")).1 .encodeUserPassword with
    | .error e => .error e
    | .ok username =>
      match unescape (cut userinfo (bytes ":")).2.1 .encodeUserPassword with
      | .error e => .error e
      | .ok password => .ok (UserPassword username password)

/-- Go `parseAuthority`. -/
def parseAuthority (authority : GoString) : Except ParseErr (Option Userinfo × GoString) :=
  match lastIndex authority (bytes "@") with
  | none =>
    match parseHost authority with
    | .error e => .error e
    | .ok host => .ok (none, host)
  | some i =>
    match parseHost (authority.drop (i + 1)) with
    | .error e => .error e
    | .ok host =>
      match parseUserinfo (authority.take i) with
      | .error e => .error e
      | .ok user => .ok (some user, host)

/-- Go `(*URL).setPath`. -/
def URL.setPath (u : URL) (p : GoString) : Except ParseErr URL :=
  match unescape p .encodePath with
  | .error e => .error e
  | .ok path =>
    if p = escape path .encodePath then .ok { u with Path := path, RawPath := [] }
    else .ok { u with Path := path, RawPath := p }

/-- The part of Go `parse` that splits off the query: the new `rest`, `RawQuery`
and `ForceQuery`. -/
def splitQuery (rest : GoString) : GoString × GoString × Bool :=
  if hasSuffix rest (bytes "?") && countByte rest 63 == 1 then
    (rest.take (rest.length - 1), [], true)
  else ((cut rest (bytes "?")).1, (cut rest (bytes "?")).2.1, false)

/-- The part of Go `parse` after the rootless-path checks: authority and path. -/
def parseAuthorityAndPath (url : URL) (rest : GoString) (viaRequest : Bool) :
    Except ParseErr URL :=
  if (url.Scheme ≠ [] ∨ (viaRequest = false ∧ hasPrefix rest (bytes "///") = false)) ∧
      hasPrefix rest (bytes "//") = true then
    let authority := rest.drop 2
    let split : GoString × GoString :=
      match index authority (bytes "/") with
      | some i => (authority.take i, authority.drop i)
      | none => (authority, [])
    match parseAuthority split.1 with
    | .error e => .error e
    | .ok (user, host) => URL.setPath { url with User := user, Host := host } split.2
  else if url.Scheme ≠ [] ∧ hasPrefix rest (bytes "/") = true then
    URL.setPath { url with OmitHost := true } rest
  else URL.setPath url rest

/-- Go `parse`. -/
def parse (rawURL : GoString) (viaRequest : Bool) : Except ParseErr URL :=
  if stringContainsCTLByte rawURL then .error .invalidControlCharacter
  else if rawURL = [] ∧ viaRequest = true then .error .emptyURL
  else if rawURL = bytes "*" then .ok { Path := bytes "*" }
  else
    match getScheme rawURL with
    | .error e => .error e
    | .ok (scheme, rest) =>
      let url : URL :=
        { Scheme := toLower scheme
          RawQuery := (splitQuery rest).2.1
          ForceQuery := (splitQuery rest).2.2 }
      let rest := (splitQuery rest).1
      if hasPrefix rest (bytes "/") = false then
        if url.Scheme ≠ [] then .ok { url with Opaque := rest }
        else if viaRequest then .error .invalidURIForRequest
        else if contains (cut rest (bytes "/")).1 (bytes ":") then .error .firstPathSegmentColon
        else parseAuthorityAndPath url rest viaRequest
      else parseAuthorityAndPath url rest viaRequest

/-- Go `url.ParseRequestURI`. -/
def ParseRequestURI (rawURL : GoString) : Except Error URL :=
  match parse rawURL true with
  | .error err => .error ⟨bytes "parse", rawURL, err⟩
  | .ok url => .ok url

/-! ## `net/url`: printing -/

/-- Go `(*Userinfo).String` on a non-nil receiver. -/
def Userinfo.String (u : Userinfo) : GoString :=
  if u.passwordSet then
    escape u.username .encodeUserPassword ++ bytes ":" ++ escape u.password .encodeUserPassword
  else escape u.username .encodeUserPassword

/-- Go `(*URL).EscapedPath`. -/
def URL.EscapedPath (u : URL) : GoString :=
  if u.RawPath ≠ [] ∧ validEncoded u.RawPath .encodePath = true ∧
      unescape u.RawPath .encodePath = .ok u.Path then u.RawPath
  else if u.Path = bytes "*" then bytes "*"
  else escape u.Path .encodePath

/-- Go `(*URL).EscapedFragment`. -/
def URL.EscapedFragment (u : URL) : GoString :=
  if u.RawFragment ≠ [] ∧ validEncoded u.RawFragment .encodeFragment = true ∧
      unescape u.RawFragment .encodeFragment = .ok u.Fragment then u.RawFragment
  else escape u.Fragment .encodeFragment

/-- What Go `(*URL).String` writes for the authority: `//`, userinfo and host. -/
def URL.authorityString (u : URL) (buf : GoString) : GoString :=
  if u.Scheme ≠ [] ∨ u.Host ≠ [] ∨ u.User ≠ none then
    if u.OmitHost = true ∧ u.Host = [] ∧ u.User = none then buf
    else
      let buf := if u.Host ≠ [] ∨ u.Path ≠ [] ∨ u.User ≠ none then buf ++ bytes "//" else buf
      let buf :=
        match u.User with
        | some ui => buf ++ ui.String ++ bytes "@"
        | none => buf
      if u.Host ≠ [] then buf ++ escape u.Host .encodeHost else buf
  else buf

/-- What Go `(*URL).String` writes for a URL that is not opaque: authority and path. -/
def URL.hierString (u : URL) (buf : GoString) : GoString :=
  let buf := u.authorityString buf
  let path := u.EscapedPath
  let buf := if path ≠ [] ∧ path.head? ≠ some 47 ∧ u.Host ≠ [] then buf ++ bytes "/" else buf
  let buf :=
    if buf = [] ∧ contains (cut path (bytes "/")).1 (bytes ":") = true then buf ++ bytes "./"
    else buf
  buf ++ path

/-- Go `(*URL).String`. -/
def URL.String (u : URL) : GoString :=
  let buf : GoString := if u.Scheme ≠ [] then u.Scheme ++ bytes ":" else []
  let buf := if u.Opaque ≠ [] then buf ++ u.Opaque else u.hierString buf
  let buf := if u.ForceQuery = true ∨ u.RawQuery ≠ [] then buf ++ bytes "?" ++ u.RawQuery else buf
  if u.Fragment ≠ [] then buf ++ bytes "#" ++ u.EscapedFragment else buf

/-! ## `fmt.Sprintf` with the verb `%d` -/

/-- The decimal digits of `n`, most significant first, written in front of `acc`;
`fuel` bounds the number of digits. -/
def decimalDigits : Nat → Nat → GoString → GoString
  | 0, _, acc => acc
  | fuel + 1, n, acc =>
    if n / 10 = 0 then (48 + n % 10) :: acc
    else decimalDigits fuel (n / 10) ((48 + n % 10) :: acc)

/-- What the verb `%d` prints for a Go `int`. -/
def formatInt : Int → GoString
  | .ofNat n => decimalDigits (n + 1) n []
  | .negSucc n => 45 :: decimalDigits (n + 2) (n + 1) []

/-! ## `cobra`: positional argument validation -/

/-- The errors the command can return. -/
inductive CmdError
  /-- The error of `cobra.RangeArgs`: accepts between `min` and `max` arg(s), received `n`. -/
  | rangeArgs (min max : Int) (received : Nat)
  /-- The `*url.Error` of `url.ParseRequestURI`. -/
  | parseURL (err : Error)
  /-- An error returned by `client.NewCobraCommandHelper` or `runReverseProxy`. -/
  | collaborator (msg : GoString)
  deriving DecidableEq, Repr

/-- Go `cobra.RangeArgs(min, max)`: `none` is the nil error. -/
def RangeArgs (min max : Int) (args : List GoString) : Option CmdError :=
  if (args.length : Int) < min ∨ (args.length : Int) > max then
    some (.rangeArgs min max args.length)
  else none

/-! ## `cmd/cloudx/proxy`: the proxy command -/

/-- Modelled from the spec: the type of `config.defaultRedirectTo`, declared outside
`proxy.go`.  `RunE` assigns a `url.URL` to its field `URL` and asks for its string
form; it is a default redirect target URL whose string form is that of the URL. -/
structure urlValue where
  URL : URL := {}
  deriving DecidableEq, Repr

/-- The string form of a default redirect target. -/
def urlValue.String (v : urlValue) : GoString := v.URL.String

/-- Modelled from the spec: the struct `config`, declared outside `proxy.go`, with the
fields `NewProxyCommand` reads or writes: the upstream URL string, the public URL
(a `*url.URL`, `none` for nil), the listen port (a Go `int`), the path prefix and
the default redirect target.  The defaults are Go's zero values. -/
structure config where
  port : Int := 0
  upstream : GoString := []
  publicURL : Option URL := none
  pathPrefix : GoString := []
  defaultRedirectTo : urlValue := {}
  deriving DecidableEq, Repr

/-- Where the configuration part of `RunE` (up to and including the default of
`defaultRedirectTo`) ends, with the value of `conf` at that point. -/
inductive Resolved
  /-- An index expression `args[i]` was out of range. -/
  | panic (conf : config)
  /-- Go `url.ParseRequestURI` failed and `RunE` returns its error. -/
  | failed (conf : config) (err : Error)
  /-- The configuration is resolved and `RunE` goes on to start the proxy. -/
  | ok (conf : config)
  deriving DecidableEq, Repr

/-- The value of `conf` a resolution ends with. -/
def Resolved.conf : Resolved → config
  | .panic conf => conf
  | .failed conf _ => conf
  | .ok conf => conf

/-- The statements of `RunE` that resolve the configuration:
`conf.upstream = args[0]`, the choice of `selfURLString`, `url.ParseRequestURI`
and the default of `conf.defaultRedirectTo`. -/
def resolveConfig (conf : config) (args : List GoString) : Resolved :=
  match args.get? 0 with
  | none => .panic conf
  | some upstream =>
    let conf := { conf with upstream := upstream }
    let selfURLString : Option GoString :=
      if args.length = 2 then args.get? 1
      else some (bytes "http://localhost:" ++ formatInt conf.port)
    match selfURLString with
    | none => .panic conf
    | some selfURLString =>
      match ParseRequestURI selfURLString with
      | .error err => .failed { conf with publicURL := none } err
      | .ok publicURL =>
        let conf := { conf with publicURL := some publicURL }
        if conf.defaultRedirectTo.String = [] then
          .ok { conf with defaultRedirectTo := { conf.defaultRedirectTo with URL := publicURL } }
        else .ok conf

/-- The collaborators `RunE` calls that are declared outside `proxy.go`, as far as
`RunE` observes them: the error (if any) of `client.NewCobraCommandHelper`, and the
error (if any) `runReverseProxy` returns for a configuration and a name. -/
structure Collaborators where
  NewCobraCommandHelper : Option CmdError
  runReverseProxy : config → GoString → Option CmdError

/-- The calls `RunE` makes to its collaborators. -/
inductive Event
  | NewCobraCommandHelper
  | runReverseProxy (conf : config) (name : GoString)
  deriving DecidableEq, Repr

/-- How a call of `RunE` ends. -/
inductive Outcome
  /-- A run-time panic (index out of range). -/
  | panic
  /-- A normal return with an error, `none` for nil. -/
  | returned (err : Option CmdError)
  deriving DecidableEq, Repr

/-- A finished call of `RunE`: the configuration as `RunE` left it, the calls it made
to its collaborators, in order, and its outcome. -/
structure Run where
  conf : config
  events : List Event
  outcome : Outcome
  deriving DecidableEq, Repr

/-- The closure `RunE` of `NewProxyCommand`, run on the captured `conf`. -/
def RunE (ext : Collaborators) (conf : config) (args : List GoString) : Run :=
  match resolveConfig conf args with
  | .panic conf => ⟨conf, [], .panic⟩
  | .failed conf err => ⟨conf, [], .returned (some (.parseURL err))⟩
  | .ok conf =>
    match ext.NewCobraCommandHelper with
    | some err => ⟨conf, [.NewCobraCommandHelper], .returned (some err)⟩
    | none =>
      ⟨conf, [.NewCobraCommandHelper, .runReverseProxy conf (bytes "proxy")],
        .returned (ext.runReverseProxy conf (bytes "proxy"))⟩

/-- The literal `conf` that `NewProxyCommand` starts from. -/
def NewProxyCommand.conf : config := { pathPrefix := bytes "/.ory" }

/-- The field `Args` of the command `NewProxyCommand` builds. -/
def NewProxyCommand.Args (args : List GoString) : Option CmdError := RangeArgs 1 2 args

/-- Running the command on positional arguments: cobra validates them with `Args`
and calls `RunE` only when the validation returned nil. -/
def execute (ext : Collaborators) (conf : config) (args : List GoString) : Run :=
  match NewProxyCommand.Args args with
  | some err => ⟨conf, [], .returned (some err)⟩
  | none => RunE ext conf args

/-- The string `RunE` hands to `url.ParseRequestURI`: the second positional argument
when there are exactly two, otherwise `http://localhost:<port>`. -/
def selfURLString (conf : config) (args : List GoString) : GoString :=
  match args with
  | [_, publish] => publish
  | _ => bytes "http://localhost:" ++ formatInt conf.port

/-! ## Resolution step by step -/

theorem resolveConfig_nil (conf : config) : resolveConfig conf [] = .panic conf := rfl

theorem resolveConfig_cons (conf : config) (a : GoString) (rest : List GoString) :
    resolveConfig conf (a :: rest) =
      match ParseRequestURI (selfURLString conf (a :: rest)) with
      | .error err => .failed { conf with upstream := a, publicURL := none } err
      | .ok u =>
        if conf.defaultRedirectTo.String = [] then
          .ok { conf with upstream := a, publicURL := some u, defaultRedirectTo := ⟨u⟩ }
        else .ok { conf with upstream := a, publicURL := some u } := by
  rcases rest with _ | ⟨b, _ | ⟨c, rest⟩⟩ <;>
    simp [resolveConfig, selfURLString]

theorem resolveConfig_pathPrefix (conf : config) (args : List GoString) :
    (resolveConfig conf args).conf.pathPrefix = conf.pathPrefix := by
  cases args with
  | nil => rfl
  | cons a rest =>
    rw [resolveConfig_cons]
    cases ParseRequestURI (selfURLString conf (a :: rest)) with
    | error e => rfl
    | ok u => dsimp only; split <;> rfl

theorem RunE_conf (ext : Collaborators) (conf : config) (args : List GoString) :
    (RunE ext conf args).conf = (resolveConfig conf args).conf := by
  unfold RunE
  cases resolveConfig conf args with
  | panic c => rfl
  | failed c e => rfl
  | ok c => dsimp only; cases ext.NewCobraCommandHelper <;> rfl

theorem RunE_events (ext : Collaborators) (conf : config) (args : List GoString)
    (c : config) (name : GoString)
    (h : Event.runReverseProxy c name ∈ (RunE ext conf args).events) :
    resolveConfig conf args = .ok c := by
  unfold RunE at h
  cases hr : resolveConfig conf args with
  | panic c0 => rw [hr] at h; simp at h
  | failed c0 e => rw [hr] at h; simp at h
  | ok c0 =>
    rw [hr] at h
    cases hh : ext.NewCobraCommandHelper with
    | some e => rw [hh] at h; simp at h
    | none => rw [hh] at h; simp at h; rw [h.1]

/-! ## The parser and the printer on sample URLs -/

theorem ParseRequestURI_sample_full :
    ParseRequestURI (bytes "http://u:p@[fe80::1%25en0]:80/a%2Fb?x=1") =
      .ok { Scheme := bytes "http"
            User := some (UserPassword (bytes "u") (bytes "p"))
            Host := bytes "[fe80::1%en0]:80"
            Path := bytes "/a/b"
            RawPath := bytes "/a%2Fb"
            RawQuery := bytes "x=1" } := by
  decide

theorem String_sample_full :
    URL.String { Scheme := bytes "http"
                 User := some (UserPassword (bytes "u") (bytes "p"))
                 Host := bytes "[fe80::1%en0]:80"
                 Path := bytes "/a/b"
                 RawPath := bytes "/a%2Fb"
                 RawQuery := bytes "x=1" } =
      bytes "http://u:p@[fe80::1%25en0]:80/a%2Fb?x=1" := by
  decide

theorem ParseRequestURI_sample_opaque :
    ParseRequestURI (bytes "localhost:4000") =
      .ok { Scheme := bytes "localhost", Opaque := bytes "4000" } := by
  decide

theorem ParseRequestURI_sample_relative :
    ParseRequestURI (bytes "welcome") =
      .error ⟨bytes "parse", bytes "welcome", .invalidURIForRequest⟩ := by
  decide

theorem String_zero_value : URL.String {} = [] := by decide

theorem formatInt_samples :
    formatInt 4000 = bytes "4000" ∧ formatInt 0 = bytes "0" ∧ formatInt (-15) = bytes "-15" := by
  decide

/-! ## Facts about `net/url` used by the claims -/

theorem bytes_star : bytes "*" = [42] := by decide
theorem bytes_slash : bytes "/" = [47] := by decide
theorem bytes_colon : bytes ":" = [58] := by decide
theorem bytes_question : bytes "?" = [63] := by decide
theorem bytes_at : bytes "@" = [64] := by decide
theorem bytes_hash : bytes "#" = [35] := by decide
theorem bytes_lbracket : bytes "[" = [91] := by decide
theorem bytes_slash2 : bytes "//" = [47, 47] := by decide
theorem bytes_slash3 : bytes "///" = [47, 47, 47] := by decide
theorem bytes_dotslash : bytes "./" = [46, 47] := by decide

theorem hasPrefix_singleton {s : GoString} {c : Nat} (h : hasPrefix s [c] = true) :
    ∃ r, s = c :: r := by
  cases s with
  | nil => simp [hasPrefix, List.isPrefixOf] at h
  | cons b r =>
    simp [hasPrefix, List.isPrefixOf] at h
    exact ⟨r, by rw [h]⟩

/-- Decoding keeps a non-empty string non-empty. -/
theorem unescape_ne_nil {s p : GoString} {mode : encoding}
    (h : unescape s mode = .ok p) (hs : s ≠ []) : p ≠ [] := by
  unfold unescape at h
  cases hscan : unescapeScan mode s 0 false with
  | error e => rw [hscan] at h; cases h
  | ok r =>
    obtain ⟨n, hp⟩ := r
    rw [hscan] at h
    dsimp only at h
    split at h
    · cases h; exact hs
    · cases h
      cases s with
      | nil => exact absurd rfl hs
      | cons c rest =>
        unfold unescapeBuild
        by_cases hc : c = 37
        · subst hc
          rcases rest with _ | ⟨a, _ | ⟨b, rest2⟩⟩
          · unfold unescapeScan at hscan; simp at hscan
          · unfold unescapeScan at hscan; simp at hscan
          · simp
        · simp only [hc, if_false]; split <;> simp

/-- Decoding keeps a leading slash. -/
theorem unescape_slash {r p : GoString} {mode : encoding}
    (h : unescape (47 :: r) mode = .ok p) : ∃ r', p = 47 :: r' := by
  unfold unescape at h
  cases hscan : unescapeScan mode (47 :: r) 0 false with
  | error e => rw [hscan] at h; cases h
  | ok res =>
    obtain ⟨n, hp⟩ := res
    rw [hscan] at h
    dsimp only at h
    split at h
    · cases h; exact ⟨r, rfl⟩
    · cases h
      refine ⟨unescapeBuild mode r, ?_⟩
      conv_lhs => unfold unescapeBuild
      simp

/-- Escaping keeps a non-empty string non-empty. -/
theorem escape_ne_nil {s : GoString} {mode : encoding} (hs : s ≠ []) : escape s mode ≠ [] := by
  cases s with
  | nil => exact absurd rfl hs
  | cons c rest =>
    unfold escape
    generalize escapeCount mode (c :: rest) = cnt
    obtain ⟨sc, hc⟩ := cnt
    dsimp only
    split
    · simp
    · split
      · simp
      · unfold escapeBuild
        split
        · simp
        · split <;> simp

theorem setPath_ok {u u' : URL} {p : GoString} (h : u.setPath p = .ok u') :
    ∃ path, unescape p .encodePath = .ok path ∧
      (u' = { u with Path := path, RawPath := [] } ∨ u' = { u with Path := path, RawPath := p }) := by
  unfold URL.setPath at h
  cases hu : unescape p .encodePath with
  | error e => rw [hu] at h; cases h
  | ok path =>
    rw [hu] at h
    dsimp only at h
    refine ⟨path, rfl, ?_⟩
    split at h
    · left; cases h; rfl
    · right; cases h; rfl

theorem setPath_scheme {u u' : URL} {p : GoString} (h : u.setPath p = .ok u') :
    u'.Scheme = u.Scheme := by
  obtain ⟨path, _, h | h⟩ := setPath_ok h <;> rw [h]

theorem parseAuthorityAndPath_scheme {url u : URL} {rest : GoString} {via : Bool}
    (h : parseAuthorityAndPath url rest via = .ok u) : u.Scheme = url.Scheme := by
  unfold parseAuthorityAndPath at h
  split at h
  · dsimp only at h
    split at h
    · cases h
    · exact (setPath_scheme h).trans rfl
  · split at h
    · exact (setPath_scheme h).trans rfl
    · exact setPath_scheme h

/-- A URL accepted for a request has a scheme, or it is not opaque, has no authority, and
its path is `*` or begins with a slash. -/
theorem parse_request_shape {rawURL : GoString} {u : URL} (h : parse rawURL true = .ok u) :
    u.Scheme ≠ [] ∨
      (u.Opaque = [] ∧ u.Host = [] ∧ u.User = none ∧
        (u.Path = bytes "*" ∨ ∃ r, u.Path = 47 :: r)) := by
  unfold parse at h
  split at h
  · cases h
  · split at h
    · cases h
    · split at h
      · cases h
        exact Or.inr ⟨rfl, rfl, rfl, Or.inl rfl⟩
      · split at h
        · cases h
        · rename_i scheme rest _
          dsimp only at h
          by_cases hsch : toLower scheme = []
          · right
            simp only [hsch, ne_eq, not_true_eq_false, if_false, if_true] at h
            split at h
            · cases h
            · rename_i hpre
              simp only [Bool.not_eq_false] at hpre
              rw [bytes_slash] at hpre
              obtain ⟨r, hr⟩ := hasPrefix_singleton hpre
              unfold parseAuthorityAndPath at h
              simp only [ne_eq, not_true_eq_false, false_or, Bool.true_eq_false, false_and,
                if_false] at h
              obtain ⟨path, hpath, hu | hu⟩ := setPath_ok h <;>
              · rw [hr] at hpath
                obtain ⟨r', hr'⟩ := unescape_slash hpath
                rw [hu]
                exact ⟨rfl, rfl, rfl, Or.inr ⟨r', hr'⟩⟩
          · left
            split at h
            · cases h
              exact hsch
            · rw [parseAuthorityAndPath_scheme h]
              exact hsch

theorem ParseRequestURI_ok {rawURL : GoString} {u : URL} (h : ParseRequestURI rawURL = .ok u) :
    parse rawURL true = .ok u := by
  unfold ParseRequestURI at h
  cases hp : parse rawURL true with
  | error e => rw [hp] at h; cases h
  | ok v => rw [hp] at h; cases h; rfl

theorem authorityString_length (u : URL) (buf : GoString) :
    buf.length ≤ (u.authorityString buf).length := by
  unfold URL.authorityString
  cases u.User <;> dsimp only <;> split_ifs <;> (try simp only [List.length_append]) <;> omega

theorem hierString_length (u : URL) (buf : GoString) :
    buf.length + u.EscapedPath.length ≤ (u.hierString buf).length := by
  unfold URL.hierString
  have := authorityString_length u buf
  dsimp only
  split_ifs <;> (try simp only [List.length_append]) <;> omega

theorem String_length_scheme (u : URL) : u.Scheme.length ≤ u.String.length := by
  unfold URL.String
  have := hierString_length u (if u.Scheme ≠ [] then u.Scheme ++ bytes ":" else [])
  dsimp only
  by_cases hs : u.Scheme = []
  · simp [hs]
  · simp only [ne_eq, hs, not_false_eq_true, if_true] at this ⊢
    split_ifs <;> (try simp only [List.length_append, List.length_nil] at this ⊢) <;> omega

theorem String_length_path (u : URL) (h : u.Opaque = []) :
    u.EscapedPath.length ≤ u.String.length := by
  unfold URL.String
  have := hierString_length u (if u.Scheme ≠ [] then u.Scheme ++ bytes ":" else [])
  dsimp only
  simp only [h, ne_eq, not_true_eq_false, if_false]
  by_cases hs : u.Scheme = []
  · simp only [hs, ne_eq, not_true_eq_false, if_false] at this ⊢
    split_ifs <;> (try simp only [List.length_append, List.length_nil] at this ⊢) <;> omega
  · simp only [ne_eq, hs, not_false_eq_true, if_true] at this ⊢
    split_ifs <;> (try simp only [List.length_append, List.length_nil] at this ⊢) <;> omega

theorem EscapedPath_ne_nil (u : URL) (h : u.Path ≠ []) : u.EscapedPath ≠ [] := by
  unfold URL.EscapedPath
  split
  · rename_i hc; exact hc.1
  · split
    · rw [bytes_star]; simp
    · exact escape_ne_nil h

/-- The string form of a URL accepted for a request is never empty. -/
theorem String_ne_nil_of_parse {rawURL : GoString} {u : URL}
    (h : ParseRequestURI rawURL = .ok u) : u.String ≠ [] := by
  intro hnil
  rcases parse_request_shape (ParseRequestURI_ok h) with hs | ⟨hO, _, _, hp⟩
  · have := String_length_scheme u
    rw [hnil] at this
    exact hs (List.length_eq_zero.mp (Nat.le_zero.mp this))
  · have hpath : u.Path ≠ [] := by
      rcases hp with hp | ⟨r, hp⟩ <;> rw [hp]
      · rw [bytes_star]; simp
      · simp
    have := String_length_path u hO
    rw [hnil] at this
    exact EscapedPath_ne_nil u hpath (List.length_eq_zero.mp (Nat.le_zero.mp this))

theorem getSchemeLoop_no_colon (rawURL : GoString) :
    ∀ (t : GoString) (i : Nat), 58 ∉ t → getSchemeLoop rawURL t i = .ok ([], rawURL) := by
  intro t
  induction t with
  | nil => intro i _; rfl
  | cons c rest ih =>
    intro i h
    simp only [List.mem_cons, not_or] at h
    unfold getSchemeLoop
    have hc : ¬ c = 58 := fun e => h.1 e.symm
    simp only [ih _ h.2, hc, if_false, ite_self]

theorem hasPrefix_take {s : GoString} {c k : Nat} (h : hasPrefix (s.take k) [c] = true) :
    hasPrefix s [c] = true := by
  obtain ⟨r, hr⟩ := hasPrefix_singleton h
  cases s with
  | nil => simp at hr
  | cons b rest =>
    cases k with
    | zero => simp at hr
    | succ k =>
      simp only [List.take_succ_cons, List.cons.injEq] at hr
      simp [hasPrefix, List.isPrefixOf, hr.1]

theorem splitQuery_hasPrefix {s : GoString} {c : Nat}
    (h : hasPrefix (splitQuery s).1 [c] = true) : hasPrefix s [c] = true := by
  unfold splitQuery at h
  split at h
  · exact hasPrefix_take h
  · dsimp only at h
    unfold cut at h
    split at h
    · exact hasPrefix_take h
    · exact h

/-- A string without a colon that neither begins with a slash nor is `*` is rejected. -/
theorem parse_request_rejects {s : GoString} (hcolon : 58 ∉ s)
    (hslash : hasPrefix s (bytes "/") = false) (hstar : s ≠ bytes "*") :
    ∃ err, ParseRequestURI s = .error err := by
  have key : ∃ e, parse s true = .error e := by
    unfold parse
    split
    · exact ⟨_, rfl⟩
    · split
      · exact ⟨_, rfl⟩
      · have hg : getScheme s = .ok ([], s) := getSchemeLoop_no_colon s s 0 hcolon
        rw [hg]
        dsimp only
        have hp : hasPrefix (splitQuery s).1 (bytes "/") = false := by
          rw [bytes_slash] at hslash ⊢
          cases hq : hasPrefix (splitQuery s).1 [47] with
          | false => rfl
          | true => rw [splitQuery_hasPrefix hq] at hslash; cases hslash
        rw [if_pos hp]
        simp [toLower]
  obtain ⟨e, he⟩ := key
  exact ⟨_, by unfold ParseRequestURI; rw [he]⟩

/-! ## The synthesized public URL `http://localhost:<port>` -/

theorem index_singleton_none {s : GoString} {c : Nat} (h : c ∉ s) : index s [c] = none := by
  induction s with
  | nil => simp [index]
  | cons b rest ih =>
    simp only [List.mem_cons, not_or] at h
    have hb : (c == b) = false := by simpa using h.1
    simp [index, List.isPrefixOf, ih h.2, hb]

theorem lastIndex_singleton_none {s : GoString} {c : Nat} (h : c ∉ s) :
    lastIndex s [c] = none := by
  induction s with
  | nil => simp [lastIndex]
  | cons b rest ih =>
    simp only [List.mem_cons, not_or] at h
    have hb : (c == b) = false := by simpa using h.1
    simp [lastIndex, List.isPrefixOf, ih h.2, hb]

theorem lastIndex_append_singleton (pre : GoString) {ds : GoString} {c : Nat} (h : c ∉ ds) :
    lastIndex (pre ++ c :: ds) [c] = some pre.length := by
  induction pre with
  | nil => simp [lastIndex, List.isPrefixOf, lastIndex_singleton_none h]
  | cons p pre ih => simp [lastIndex, ih]

theorem hasSuffix_singleton_false {s : GoString} {c : Nat} (h : c ∉ s) :
    hasSuffix s [c] = false := by
  cases hs : hasSuffix s [c] with
  | false => rfl
  | true =>
    exfalso
    unfold hasSuffix at hs
    rw [List.isSuffixOf_iff_suffix] at hs
    exact h (hs.subset (List.mem_singleton_self c))

theorem splitQuery_no_query {s : GoString} (h : 63 ∉ s) : splitQuery s = (s, [], false) := by
  unfold splitQuery cut
  rw [bytes_question, hasSuffix_singleton_false h, index_singleton_none h]
  rfl

theorem unescapeScan_plain (mode : encoding) :
    ∀ (s : GoString), (∀ c ∈ s, c ≠ 37 ∧ c ≠ 43 ∧ shouldEscape c .encodeHost = false) →
      ∀ n hp, unescapeScan mode s n hp = .ok (n, hp) := by
  intro s
  induction s with
  | nil => intro _ n hp; rfl
  | cons c rest ih =>
    intro h n hp
    have hc := h c (List.mem_cons_self c rest)
    have hrest := ih (fun d hd => h d (List.mem_cons_of_mem c hd)) n hp
    unfold unescapeScan
    simp [hc.1, hc.2.1, hc.2.2, hrest]

theorem unescape_plain {s : GoString} (mode : encoding)
    (h : ∀ c ∈ s, c ≠ 37 ∧ c ≠ 43 ∧ shouldEscape c .encodeHost = false) :
    unescape s mode = .ok s := by
  unfold unescape
  rw [unescapeScan_plain mode s h 0 false]
  simp

theorem escapeCount_plain (mode : encoding) :
    ∀ (s : GoString), (∀ c ∈ s, shouldEscape c mode = false) → escapeCount mode s = (0, 0) := by
  intro s
  induction s with
  | nil => intro _; rfl
  | cons c rest ih =>
    intro h
    have hc := h c (List.mem_cons_self c rest)
    have hrest := ih (fun d hd => h d (List.mem_cons_of_mem c hd))
    unfold escapeCount
    simp [hc, hrest]

theorem escape_plain {s : GoString} (mode : encoding)
    (h : ∀ c ∈ s, shouldEscape c mode = false) : escape s mode = s := by
  unfold escape
  rw [escapeCount_plain mode s h]
  simp

theorem shouldEscape_digit {d : Nat} (h : 48 ≤ d ∧ d ≤ 57) (mode : encoding) :
    shouldEscape d mode = false := by
  unfold shouldEscape
  simp [h.1, h.2]

theorem decimalDigits_digits :
    ∀ (fuel n : Nat) (acc : GoString), (∀ d ∈ acc, 48 ≤ d ∧ d ≤ 57) →
      ∀ d ∈ decimalDigits fuel n acc, 48 ≤ d ∧ d ≤ 57 := by
  intro fuel
  induction fuel with
  | zero => intro n acc h; exact h
  | succ fuel ih =>
    intro n acc h
    have hacc : ∀ d ∈ (48 + n % 10) :: acc, 48 ≤ d ∧ d ≤ 57 := by
      intro d hd
      rcases List.mem_cons.mp hd with rfl | hd
      · omega
      · exact h d hd
    unfold decimalDigits
    split
    · exact hacc
    · exact ih _ _ hacc

theorem formatInt_digits {p : Int} (hp : 0 ≤ p) : ∀ d ∈ formatInt p, 48 ≤ d ∧ d ≤ 57 := by
  obtain ⟨n, rfl⟩ := Int.eq_ofNat_of_zero_le hp
  exact decimalDigits_digits _ _ [] (by simp)

theorem bytes_http : bytes "http" = [104, 116, 116, 112] := by decide
theorem bytes_localhost_colon :
    bytes "localhost:" = [108, 111, 99, 97, 108, 104, 111, 115, 116, 58] := by decide
theorem bytes_http_localhost_colon :
    bytes "http://localhost:" = bytes "http" ++ 58 :: 47 :: 47 :: bytes "localhost:" := by decide

/-- The authority `localhost:<digits>` is a host without userinfo. -/
theorem parseAuthority_localhost {ds : GoString} (hd : ∀ d ∈ ds, 48 ≤ d ∧ d ≤ 57) :
    parseAuthority (bytes "localhost:" ++ ds) = .ok (none, bytes "localhost:" ++ ds) := by
  have hlit : ∀ c ∈ bytes "localhost:",
      c ≠ 37 ∧ c ≠ 43 ∧ c ≠ 64 ∧ shouldEscape c .encodeHost = false := by decide
  have hmem : ∀ c, c ∈ bytes "localhost:" ++ ds →
      c ≠ 37 ∧ c ≠ 43 ∧ c ≠ 64 ∧ shouldEscape c .encodeHost = false := by
    intro c hc
    rcases List.mem_append.mp hc with hc | hc
    · exact hlit c hc
    · have := hd c hc
      exact ⟨by omega, by omega, by omega, shouldEscape_digit this _⟩
  have hat : 64 ∉ bytes "localhost:" ++ ds := fun h => (hmem 64 h).2.2.1 rfl
  have hcolon : 58 ∉ ds := fun h => by have := hd 58 h; omega
  have hlast : lastIndex (bytes "localhost:" ++ ds) [58] = some 9 := by
    have := lastIndex_append_singleton (bytes "localhost") hcolon
    exact this
  have hport : validOptionalPort (58 :: ds) = true := by
    simp only [validOptionalPort, ne_eq, not_true_eq_false, if_false, List.all_eq_true]
    intro d hdm
    have := hd d hdm
    simp; omega
  have hun : unescape (bytes "localhost:" ++ ds) .encodeHost = .ok (bytes "localhost:" ++ ds) :=
    unescape_plain _ (fun c hc => ⟨(hmem c hc).1, (hmem c hc).2.1, (hmem c hc).2.2.2⟩)
  have hhost : parseHost (bytes "localhost:" ++ ds) = .ok (bytes "localhost:" ++ ds) := by
    unfold parseHost
    have hpre : hasPrefix (bytes "localhost:" ++ ds) (bytes "[") = false := rfl
    rw [hpre, bytes_colon, hlast]
    have hdrop : List.drop 9 (bytes "localhost:" ++ ds) = 58 :: ds := rfl
    simp only [Bool.false_eq_true, if_false, hdrop, hport, Bool.not_true, hun]
  unfold parseAuthority
  rw [bytes_at, lastIndex_singleton_none hat]
  simp only [hhost]

/-- Parsing `http://localhost:<digits>` yields scheme `http`, host `localhost:<digits>`
and nothing else. -/
theorem ParseRequestURI_localhost {ds : GoString} (hd : ∀ d ∈ ds, 48 ≤ d ∧ d ≤ 57) :
    ParseRequestURI (bytes "http://localhost:" ++ ds) =
      .ok { Scheme := bytes "http", Host := bytes "localhost:" ++ ds } := by
  have hlit : ∀ c ∈ bytes "http://localhost:", ¬ (c < 32 ∨ c = 127) ∧ c ≠ 63 := by decide
  have hmem : ∀ c, c ∈ bytes "http://localhost:" ++ ds →
      ¬ (c < 32 ∨ c = 127) ∧ c ≠ 63 := by
    intro c hc
    rcases List.mem_append.mp hc with hc | hc
    · exact hlit c hc
    · have := hd c hc
      omega
  have hctl : stringContainsCTLByte (bytes "http://localhost:" ++ ds) = false := by
    unfold stringContainsCTLByte
    rw [List.any_eq_false]
    intro c hc
    have := (hmem c hc).1
    simp; omega
  have hrest : 63 ∉ 47 :: 47 :: (bytes "localhost:" ++ ds) := by
    intro h
    refine (hmem 63 ?_).2 rfl
    rw [bytes_http_localhost_colon]
    simp only [List.mem_cons, List.mem_append] at h ⊢
    tauto
  have hslash : 47 ∉ bytes "localhost:" ++ ds := by
    intro h
    rcases List.mem_append.mp h with h | h
    · revert h; decide
    · have := hd 47 h; omega
  have hscheme : getScheme (bytes "http://localhost:" ++ ds) =
      .ok (bytes "http", 47 :: 47 :: (bytes "localhost:" ++ ds)) := rfl
  have hpath : parseAuthorityAndPath { Scheme := bytes "http" }
      (47 :: 47 :: (bytes "localhost:" ++ ds)) true =
      .ok { Scheme := bytes "http", Host := bytes "localhost:" ++ ds } := by
    unfold parseAuthorityAndPath
    have h1 : hasPrefix (47 :: 47 :: (bytes "localhost:" ++ ds)) (bytes "//") = true := rfl
    have h2 : List.drop 2 (47 :: 47 :: (bytes "localhost:" ++ ds)) = bytes "localhost:" ++ ds := rfl
    have h3 : ({ Scheme := bytes "http" } : URL).Scheme ≠ [] := by decide
    rw [if_pos ⟨Or.inl h3, h1⟩]
    simp only [h2, bytes_slash, index_singleton_none hslash, parseAuthority_localhost hd]
    rfl
  unfold ParseRequestURI parse
  have hne : bytes "http://localhost:" ++ ds ≠ [] := by
    rw [bytes_http_localhost_colon]; simp [bytes_http]
  have hns : bytes "http://localhost:" ++ ds ≠ bytes "*" := by
    rw [bytes_http_localhost_colon, bytes_http, bytes_star]; simp
  have hlow : toLower (bytes "http") = bytes "http" := by decide
  have hpre : hasPrefix (47 :: 47 :: (bytes "localhost:" ++ ds)) (bytes "/") = true := rfl
  rw [hctl, hscheme]
  simp only [Bool.false_eq_true, if_false, splitQuery_no_query hrest, hne, hns, false_and,
    hlow, hpre, Bool.true_eq_false, hpath]

/-- The string form of the synthesized public URL is `http://localhost:<digits>`. -/
theorem String_localhost {ds : GoString} (hd : ∀ d ∈ ds, 48 ≤ d ∧ d ≤ 57) :
    URL.String { Scheme := bytes "http", Host := bytes "localhost:" ++ ds } =
      bytes "http://localhost:" ++ ds := by
  have hesc : escape (bytes "localhost:" ++ ds) .encodeHost = bytes "localhost:" ++ ds := by
    have hlit : ∀ c ∈ bytes "localhost:", shouldEscape c .encodeHost = false := by decide
    refine escape_plain _ (fun c hc => ?_)
    rcases List.mem_append.mp hc with hc | hc
    · exact hlit c hc
    · exact shouldEscape_digit (hd c hc) _
  have hhost : bytes "localhost:" ++ ds ≠ [] := by rw [bytes_localhost_colon]; simp
  have hsch : bytes "http" ≠ [] := by decide
  have hpath : URL.EscapedPath { Scheme := bytes "http", Host := bytes "localhost:" ++ ds } = [] := by
    simp [URL.EscapedPath, bytes_star, escape, escapeCount]
  unfold URL.String URL.hierString URL.authorityString
  simp only [hpath]
  simp [hhost, hsch, hesc, bytes_http_localhost_colon, bytes_colon, bytes_slash2]

/-- The verb `%d` prints a non-negative integer as its decimal digits. -/
theorem formatInt_ofNat (n : Nat) :
    formatInt (Int.ofNat n) = (Nat.toDigits 10 n).map Char.toNat := by
  have hdigit : ∀ k, k < 10 → (Nat.digitChar k).toNat = 48 + k := by decide
  have key : ∀ (fuel m : Nat) (acc : List Char),
      decimalDigits fuel m (acc.map Char.toNat) =
        (Nat.toDigitsCore 10 fuel m acc).map Char.toNat := by
    intro fuel
    induction fuel with
    | zero => intro m acc; rfl
    | succ fuel ih =>
      intro m acc
      have hd := hdigit (m % 10) (Nat.mod_lt _ (by decide))
      unfold decimalDigits Nat.toDigitsCore
      by_cases hz : m / 10 = 0
      · simp [hz, hd]
      · simp only [hz, if_false]
        rw [← ih]
        simp [hd]
  exact key (n + 1) n []

/-- What `url.ParseRequestURI` lets through as a public URL: every public URL that
resolution accepts has a scheme, or it has no host and its path begins with a slash or
is `*`; and a publish URL without a colon that neither begins with a slash nor is `*`
makes resolution fail with the parse error. -/
theorem accepted_public_url_shape (conf : config) (args : List GoString) :
    (∀ conf', resolveConfig conf args = .ok conf' →
      ∃ u, conf'.publicURL = some u ∧
        (u.Scheme ≠ [] ∨ (u.Host = [] ∧ (u.Path = bytes "*" ∨ ∃ r, u.Path = bytes "/" ++ r)))) ∧
    (∀ app publish, args = [app, publish] → 58 ∉ publish →
      hasPrefix publish (bytes "/") = false → publish ≠ bytes "*" →
      ∃ conf' err, resolveConfig conf args = .failed conf' err ∧
        ParseRequestURI publish = .error err) := by
  constructor
  · intro conf' h
    cases args with
    | nil => cases h
    | cons a rest =>
      rw [resolveConfig_cons] at h
      cases hp : ParseRequestURI (selfURLString conf (a :: rest)) with
      | error e => rw [hp] at h; cases h
      | ok u =>
        rw [hp] at h
        have hshape := parse_request_shape (ParseRequestURI_ok hp)
        have hgoal : u.Scheme ≠ [] ∨
            (u.Host = [] ∧ (u.Path = bytes "*" ∨ ∃ r, u.Path = bytes "/" ++ r)) := by
          rcases hshape with hs | ⟨_, hH, _, hP⟩
          · exact Or.inl hs
          · refine Or.inr ⟨hH, ?_⟩
            rcases hP with hP | ⟨r, hP⟩
            · exact Or.inl hP
            · exact Or.inr ⟨r, by rw [hP, bytes_slash]; rfl⟩
        dsimp only at h
        split at h <;> cases h <;> exact ⟨u, rfl, hgoal⟩
  · intro app publish hargs hcolon hslash hstar
    subst hargs
    obtain ⟨err, herr⟩ := parse_request_rejects hcolon hslash hstar
    rw [resolveConfig_cons]
    have hs : selfURLString conf [app, publish] = publish := rfl
    rw [hs, herr]
    exact ⟨_, err, rfl, rfl⟩

/-! ## The claims -/

/-- C1: for every listen port `p` (a port number is not negative), a run with exactly one
positional argument resolves the public URL to scheme `http`, host `localhost:<p>` and
nothing else (no path), whose string form is `http://localhost:<p>`. -/
theorem public_url_synthesized_from_port (conf : config) (app : GoString)
    (hport : 0 ≤ conf.port) :
    ∃ conf', resolveConfig conf [app] = .ok conf' ∧
      conf'.publicURL =
        some { Scheme := bytes "http", Host := bytes "localhost:" ++ formatInt conf.port,
               Path := [] } ∧
      URL.String { Scheme := bytes "http", Host := bytes "localhost:" ++ formatInt conf.port,
                   Path := [] } = bytes "http://localhost:" ++ formatInt conf.port := by
  have hd := formatInt_digits hport
  have hs : selfURLString conf [app] = bytes "http://localhost:" ++ formatInt conf.port := rfl
  rw [resolveConfig_cons, hs, ParseRequestURI_localhost hd]
  dsimp only
  split
  · exact ⟨_, rfl, rfl, String_localhost hd⟩
  · exact ⟨_, rfl, rfl, String_localhost hd⟩

theorem public_url_synthesized_from_port_witness :
    ∃ conf', resolveConfig { NewProxyCommand.conf with port := 4000 }
        [bytes "http://localhost:3000"] = .ok conf' ∧
      conf'.publicURL = some { Scheme := bytes "http", Host := bytes "localhost:4000", Path := [] } ∧
      URL.String { Scheme := bytes "http", Host := bytes "localhost:4000", Path := [] } =
        bytes "http://localhost:4000" :=
  public_url_synthesized_from_port { NewProxyCommand.conf with port := 4000 }
    (bytes "http://localhost:3000") (by decide)

/-- With a negative value of the port flag the synthesized string `http://localhost:-1`
is no URL: `-1` is not a port, and resolution fails with the parse error. -/
theorem negative_port_is_rejected :
    resolveConfig { NewProxyCommand.conf with port := -1 } [bytes "http://localhost:3000"] =
      .failed { port := -1, upstream := bytes "http://localhost:3000", pathPrefix := bytes "/.ory" }
        ⟨bytes "parse", bytes "http://localhost:-1", .invalidPort (bytes ":-1")⟩ := by
  decide

/-- C2: when no default redirect is configured (its string form is empty) and the public
URL string parses, resolution succeeds and the default redirect target is the resolved
public URL, for a publish URL given as second argument as well as for the one synthesized
from the port. -/
theorem default_redirect_defaults_to_public_url (conf : config) (args : List GoString)
    (u : URL) (hargs : args ≠ [])
    (hempty : conf.defaultRedirectTo.String = [])
    (hparse : ParseRequestURI (selfURLString conf args) = .ok u) :
    ∃ conf', resolveConfig conf args = .ok conf' ∧ conf'.publicURL = some u ∧
      conf'.defaultRedirectTo.URL = u := by
  obtain ⟨a, rest, rfl⟩ := List.exists_cons_of_ne_nil hargs
  rw [resolveConfig_cons, hparse]
  simp [hempty]

theorem default_redirect_defaults_to_public_url_witness :
    (∃ conf', resolveConfig { NewProxyCommand.conf with port := 4000 }
        [bytes "http://localhost:3000", bytes "https://www.example.org"] = .ok conf' ∧
      conf'.publicURL = some { Scheme := bytes "https", Host := bytes "www.example.org" } ∧
      conf'.defaultRedirectTo.URL = { Scheme := bytes "https", Host := bytes "www.example.org" }) ∧
    (∃ conf', resolveConfig { NewProxyCommand.conf with port := 4000 }
        [bytes "http://localhost:3000"] = .ok conf' ∧
      conf'.publicURL = some { Scheme := bytes "http", Host := bytes "localhost:4000" } ∧
      conf'.defaultRedirectTo.URL = { Scheme := bytes "http", Host := bytes "localhost:4000" }) :=
  ⟨default_redirect_defaults_to_public_url _ _ _ (by decide) (by decide) (by decide),
   default_redirect_defaults_to_public_url _ _ _ (by decide) (by decide) (by decide)⟩

/-- C3, the code at a publish URL with a path: `url.ParseRequestURI` accepts
`https://gateway.local:5000/app`, so resolution succeeds and the public URL (and with it
the default redirect target) carries the path `/app`. -/
theorem publish_url_with_path_is_accepted :
    resolveConfig { NewProxyCommand.conf with port := 4000 }
        [bytes "http://localhost:3000", bytes "https://gateway.local:5000/app"] =
      .ok { port := 4000
            upstream := bytes "http://localhost:3000"
            pathPrefix := bytes "/.ory"
            publicURL := some
              { Scheme := bytes "https", Host := bytes "gateway.local:5000", Path := bytes "/app" }
            defaultRedirectTo :=
              ⟨{ Scheme := bytes "https", Host := bytes "gateway.local:5000", Path := bytes "/app" }⟩ } := by
  decide

/-- C4, the code at a publish URL that is not an absolute URI: `url.ParseRequestURI`
accepts the bare absolute path `/welcome`, so resolution succeeds with a public URL
whose scheme and host are empty (and whose path is `/welcome`), and the default redirect
target becomes that URL. -/
theorem bare_path_publish_url_is_accepted :
    ParseRequestURI (bytes "/welcome") =
      .ok { Scheme := [], Host := [], Path := bytes "/welcome" } ∧
    resolveConfig { NewProxyCommand.conf with port := 4000 }
        [bytes "http://localhost:3000", bytes "/welcome"] =
      .ok { port := 4000
            upstream := bytes "http://localhost:3000"
            pathPrefix := bytes "/.ory"
            publicURL := some { Scheme := [], Host := [], Path := bytes "/welcome" }
            defaultRedirectTo := ⟨{ Scheme := [], Host := [], Path := bytes "/welcome" }⟩ } := by
  decide

/-- C5, counterexample: the first argument `not a url` does not parse as a URI, yet
resolution succeeds and stores it as the upstream. -/
theorem unparsable_upstream_is_stored :
    ParseRequestURI (bytes "not a url") =
      .error ⟨bytes "parse", bytes "not a url", .invalidURIForRequest⟩ ∧
    resolveConfig { NewProxyCommand.conf with port := 4000 } [bytes "not a url"] =
      .ok { port := 4000
            upstream := bytes "not a url"
            pathPrefix := bytes "/.ory"
            publicURL := some { Scheme := bytes "http", Host := bytes "localhost:4000" }
            defaultRedirectTo := ⟨{ Scheme := bytes "http", Host := bytes "localhost:4000" }⟩ } := by
  decide

/-- C5, amended: resolution stores the first positional argument as the upstream, as it
is and without parsing it; whether resolution succeeds or fails does not depend on that
argument; and after a successful resolution `RunE` constructs the client helper and, when
that returns no error, calls `runReverseProxy` with the resolved configuration, whose
upstream is that argument (every call of `runReverseProxy` carries it). -/
theorem upstream_stored_verbatim (ext : Collaborators) (conf : config) (a : GoString)
    (rest : List GoString) :
    (resolveConfig conf (a :: rest)).conf.upstream = a ∧
    (∀ c name, Event.runReverseProxy c name ∈ (RunE ext conf (a :: rest)).events →
      c.upstream = a) ∧
    (∀ c, resolveConfig conf (a :: rest) = .ok c →
      c.upstream = a ∧
      (ext.NewCobraCommandHelper = none →
        (RunE ext conf (a :: rest)).events =
            [.NewCobraCommandHelper, .runReverseProxy c (bytes "proxy")] ∧
          (RunE ext conf (a :: rest)).outcome =
            .returned (ext.runReverseProxy c (bytes "proxy"))) ∧
      (∀ err, ext.NewCobraCommandHelper = some err →
        (RunE ext conf (a :: rest)).events = [.NewCobraCommandHelper] ∧
          (RunE ext conf (a :: rest)).outcome = .returned (some err))) ∧
    ∀ a', ((∃ c, resolveConfig conf (a :: rest) = .ok c) ↔
            (∃ c, resolveConfig conf (a' :: rest) = .ok c)) ∧
          (∀ err, (∃ c, resolveConfig conf (a :: rest) = .failed c err) ↔
            (∃ c, resolveConfig conf (a' :: rest) = .failed c err)) := by
  have hs : ∀ a', selfURLString conf (a' :: rest) = selfURLString conf (a :: rest) := by
    intro a'
    rcases rest with _ | ⟨b, _ | ⟨c, rest⟩⟩ <;> rfl
  have hup : (resolveConfig conf (a :: rest)).conf.upstream = a := by
    rw [resolveConfig_cons]
    cases ParseRequestURI (selfURLString conf (a :: rest)) with
    | error e => rfl
    | ok u => dsimp only; split <;> rfl
  refine ⟨hup, fun c name h => ?_, fun c hc => ⟨?_, fun hh => ?_, fun err hh => ?_⟩,
    fun a' => ?_⟩
  · rw [RunE_events ext conf (a :: rest) c name h] at hup
    exact hup
  · rw [hc] at hup
    exact hup
  · unfold RunE
    rw [hc]
    simp [hh]
  · unfold RunE
    rw [hc]
    simp [hh]
  · rw [resolveConfig_cons, resolveConfig_cons, hs a']
    cases ParseRequestURI (selfURLString conf (a :: rest)) with
    | error e => simp
    | ok u => by_cases hd : conf.defaultRedirectTo.String = [] <;> simp [hd]

theorem upstream_stored_verbatim_witness :
    (RunE ⟨none, fun _ _ => none⟩ { NewProxyCommand.conf with port := 4000 }
        [bytes "not a url"]).events =
      [.NewCobraCommandHelper,
       .runReverseProxy
          { port := 4000
            upstream := bytes "not a url"
            pathPrefix := bytes "/.ory"
            publicURL := some { Scheme := bytes "http", Host := bytes "localhost:4000" }
            defaultRedirectTo := ⟨{ Scheme := bytes "http", Host := bytes "localhost:4000" }⟩ }
          (bytes "proxy")] :=
  (((upstream_stored_verbatim ⟨none, fun _ _ => none⟩ { NewProxyCommand.conf with port := 4000 }
      (bytes "not a url") []).2.2.1 _ (by decide)).2.1 rfl).1

/-- C6: whenever parsing the public URL string fails, `RunE` returns that error, makes no
call to `client.NewCobraCommandHelper` or `runReverseProxy`, and leaves the default
redirect target as it was. -/
theorem parse_failure_aborts_before_proxy_start (ext : Collaborators) (conf : config)
    (args : List GoString) (err : Error) (hargs : args ≠ [])
    (hparse : ParseRequestURI (selfURLString conf args) = .error err) :
    (RunE ext conf args).outcome = .returned (some (.parseURL err)) ∧
    (RunE ext conf args).events = [] ∧
    (RunE ext conf args).conf.defaultRedirectTo = conf.defaultRedirectTo := by
  obtain ⟨a, rest, rfl⟩ := List.exists_cons_of_ne_nil hargs
  unfold RunE
  rw [resolveConfig_cons, hparse]
  exact ⟨rfl, rfl, rfl⟩

theorem parse_failure_aborts_before_proxy_start_witness :
    (RunE ⟨none, fun _ _ => none⟩ { NewProxyCommand.conf with port := 4000 }
        [bytes "http://localhost:3000", bytes "welcome"]).outcome =
      .returned (some (.parseURL ⟨bytes "parse", bytes "welcome", .invalidURIForRequest⟩)) ∧
    (RunE ⟨none, fun _ _ => none⟩ { NewProxyCommand.conf with port := 4000 }
        [bytes "http://localhost:3000", bytes "welcome"]).events = [] ∧
    (RunE ⟨none, fun _ _ => none⟩ { NewProxyCommand.conf with port := 4000 }
        [bytes "http://localhost:3000", bytes "welcome"]).conf.defaultRedirectTo =
      ({ NewProxyCommand.conf with port := 4000 } : config).defaultRedirectTo :=
  parse_failure_aborts_before_proxy_start _ _ _ _ (by decide) (by decide)

/-- C7: the command accepts an argument list exactly when it has one or two positional
arguments; a rejected list (none, or three and more) makes the command return the
validation error without running `RunE`; on an accepted list `RunE` does not panic:
its reads of `args[0]` and `args[1]` are in bounds. -/
theorem args_accepted_iff_one_or_two (ext : Collaborators) (conf : config)
    (args : List GoString) :
    (NewProxyCommand.Args args = none ↔ (args.length = 1 ∨ args.length = 2)) ∧
    (∀ err, NewProxyCommand.Args args = some err →
      execute ext conf args = ⟨conf, [], .returned (some err)⟩) ∧
    (NewProxyCommand.Args args = none →
      execute ext conf args = RunE ext conf args ∧ (RunE ext conf args).outcome ≠ .panic) := by
  have hiff : NewProxyCommand.Args args = none ↔ (args.length = 1 ∨ args.length = 2) := by
    unfold NewProxyCommand.Args RangeArgs
    split
    · simp only [reduceCtorEq, false_iff]; omega
    · simp only [true_iff]; omega
  refine ⟨hiff, ?_, ?_⟩
  · intro err h
    unfold execute
    rw [h]
  · intro h
    refine ⟨by unfold execute; rw [h], ?_⟩
    have hlen := hiff.mp h
    obtain ⟨a, rest, rfl⟩ : ∃ a rest, args = a :: rest := by
      cases args with
      | nil => simp at hlen
      | cons a rest => exact ⟨a, rest, rfl⟩
    unfold RunE
    rw [resolveConfig_cons]
    cases ParseRequestURI (selfURLString conf (a :: rest)) with
    | error e => simp
    | ok u =>
      by_cases hd : conf.defaultRedirectTo.String = [] <;> simp only [hd, if_true, if_false] <;>
        cases ext.NewCobraCommandHelper <;> simp

theorem args_accepted_iff_one_or_two_witness :
    NewProxyCommand.Args [] ≠ none ∧
    NewProxyCommand.Args [bytes "a", bytes "b", bytes "c"] ≠ none ∧
    (RunE ⟨none, fun _ _ => none⟩ NewProxyCommand.conf [bytes "http://localhost:3000"]).outcome
      ≠ .panic :=
  ⟨by decide, by decide,
   ((args_accepted_iff_one_or_two ⟨none, fun _ _ => none⟩ NewProxyCommand.conf
      [bytes "http://localhost:3000"]).2.2 (by decide)).2⟩

/-- C8: the configuration `NewProxyCommand` starts from has path prefix `/.ory`, and `RunE`
never changes the path prefix: for every configuration (so every port) and argument list it
is the same after `RunE`, and in the configuration handed to `runReverseProxy`, as before. -/
theorem path_prefix_default_and_frame :
    NewProxyCommand.conf.pathPrefix = bytes "/.ory" ∧
    ∀ (ext : Collaborators) (conf : config) (args : List GoString),
      (RunE ext conf args).conf.pathPrefix = conf.pathPrefix ∧
      ∀ c name, Event.runReverseProxy c name ∈ (RunE ext conf args).events →
        c.pathPrefix = conf.pathPrefix := by
  refine ⟨rfl, fun ext conf args => ⟨?_, fun c name h => ?_⟩⟩
  · rw [RunE_conf, resolveConfig_pathPrefix]
  · have := resolveConfig_pathPrefix conf args
    rw [RunE_events ext conf args c name h] at this
    exact this

/-- C9: when a default redirect target is configured (its string form is not empty),
`RunE` leaves it unchanged, whatever the arguments and the port: it is the same after
`RunE`, and in the configuration handed to `runReverseProxy`, as before. -/
theorem configured_default_redirect_unchanged (ext : Collaborators) (conf : config)
    (args : List GoString) (hset : conf.defaultRedirectTo.String ≠ []) :
    (RunE ext conf args).conf.defaultRedirectTo = conf.defaultRedirectTo ∧
    ∀ c name, Event.runReverseProxy c name ∈ (RunE ext conf args).events →
      c.defaultRedirectTo = conf.defaultRedirectTo := by
  have key : (resolveConfig conf args).conf.defaultRedirectTo = conf.defaultRedirectTo := by
    cases args with
    | nil => rfl
    | cons a rest =>
      rw [resolveConfig_cons]
      cases ParseRequestURI (selfURLString conf (a :: rest)) with
      | error e => rfl
      | ok u => simp [hset, Resolved.conf]
  refine ⟨by rw [RunE_conf, key], fun c name h => ?_⟩
  rw [RunE_events ext conf args c name h] at key
  exact key

theorem configured_default_redirect_unchanged_witness :
    (RunE ⟨none, fun _ _ => none⟩
        { NewProxyCommand.conf with port := 4000, defaultRedirectTo := ⟨{ Path := bytes "/welcome" }⟩ }
        [bytes "http://127.0.0.1:3000", bytes "https://ory.example.org"]).conf.defaultRedirectTo =
      ⟨{ Path := bytes "/welcome" }⟩ :=
  (configured_default_redirect_unchanged ⟨none, fun _ _ => none⟩
    { NewProxyCommand.conf with port := 4000, defaultRedirectTo := ⟨{ Path := bytes "/welcome" }⟩ }
    [bytes "http://127.0.0.1:3000", bytes "https://ory.example.org"] (by decide)).1

/-- C10: after every successful resolution the default redirect target is not empty:
either it was configured (not empty) beforehand and is unchanged, or it was empty and is
now the resolved public URL, whose string form is not empty; the empty public URL string
does not parse. -/
theorem default_redirect_nonempty_after_resolution (conf conf' : config)
    (args : List GoString) (h : resolveConfig conf args = .ok conf') :
    conf'.defaultRedirectTo.String ≠ [] ∧
    ((conf.defaultRedirectTo.String ≠ [] ∧ conf'.defaultRedirectTo = conf.defaultRedirectTo) ∨
      (conf.defaultRedirectTo.String = [] ∧
        conf'.publicURL = some conf'.defaultRedirectTo.URL)) ∧
    ParseRequestURI [] = .error ⟨bytes "parse", [], .emptyURL⟩ := by
  cases args with
  | nil => cases h
  | cons a rest =>
    rw [resolveConfig_cons] at h
    cases hp : ParseRequestURI (selfURLString conf (a :: rest)) with
    | error e => rw [hp] at h; cases h
    | ok u =>
      rw [hp] at h
      dsimp only at h
      by_cases hd : conf.defaultRedirectTo.String = []
      · rw [if_pos hd] at h
        cases h
        exact ⟨String_ne_nil_of_parse hp, Or.inr ⟨hd, rfl⟩, rfl⟩
      · rw [if_neg hd] at h
        cases h
        exact ⟨hd, Or.inl ⟨hd, rfl⟩, rfl⟩

theorem default_redirect_nonempty_after_resolution_witness :
    (⟨{ Scheme := bytes "http", Host := bytes "localhost:4000" }⟩ : urlValue).String ≠ [] :=
  (default_redirect_nonempty_after_resolution { NewProxyCommand.conf with port := 4000 }
    { port := 4000
      upstream := bytes "http://localhost:3000"
      pathPrefix := bytes "/.ory"
      publicURL := some { Scheme := bytes "http", Host := bytes "localhost:4000" }
      defaultRedirectTo := ⟨{ Scheme := bytes "http", Host := bytes "localhost:4000" }⟩ }
    [bytes "http://localhost:3000"] (by decide)).1

end OryProxy
